import Mathlib

/-!
Verification of the kinematic-chain core of `robot3D_basic.py`:
`RotationMatrix`, `getLocalFrameMatrix` and `forward_kinematics`.

The Python code works with numpy float matrices; we embed it over `ℝ`.
Failure paths of the Python runtime (an `UnboundLocalError` when
`RotationMatrix` assigns no matrix, an `IndexError` on an out-of-range
list index) are modelled with `Option`: `none` means the call raises.
-/

noncomputable section

namespace Robot3D

abbrev M3 := Matrix (Fin 3) (Fin 3) ℝ

abbrev M4 := Matrix (Fin 4) (Fin 4) ℝ

/-- Embedding of `RotationMatrix(theta, axis_name)` (lines 9-34).
The control flow is kept exactly: the `'x'` test is an `if`, followed by a
separate `if 'y' / elif 'z'` chain; `rm1` is the value of the local variable
`rotation_matrix` after the first statement (`none` = still unassigned, so
`return rotation_matrix` would raise `UnboundLocalError`). -/
def RotationMatrix (theta : ℝ) (axis_name : String) : Option M3 :=
  let c := Real.cos (theta * Real.pi / 180)
  let s := Real.sin (theta * Real.pi / 180)
  let rm1 : Option M3 :=
    if axis_name = "x" then
      some (Matrix.of ![![1, 0, 0], ![0, c, -s], ![0, s, c]])
    else none
  if axis_name = "y" then
    some (Matrix.of ![![c, 0, s], ![0, 1, 0], ![-s, 0, c]])
  else if axis_name = "z" then
    some (Matrix.of ![![c, -s, 0], ![s, c, 0], ![0, 0, 1]])
  else rm1

/-- The matrix of the `axis_name == 'x'` branch of `RotationMatrix`
(lines 22-25), as a named abbreviation. -/
def rotX (θ : ℝ) : M3 := Matrix.of
  ![![1, 0, 0],
    ![0, Real.cos (θ * Real.pi / 180), -Real.sin (θ * Real.pi / 180)],
    ![0, Real.sin (θ * Real.pi / 180), Real.cos (θ * Real.pi / 180)]]

/-- The matrix of the `axis_name == 'y'` branch of `RotationMatrix`
(lines 26-29). -/
def rotY (θ : ℝ) : M3 := Matrix.of
  ![![Real.cos (θ * Real.pi / 180), 0, Real.sin (θ * Real.pi / 180)],
    ![0, 1, 0],
    ![-Real.sin (θ * Real.pi / 180), 0, Real.cos (θ * Real.pi / 180)]]

/-- The matrix of the `axis_name == 'z'` branch of `RotationMatrix`
(lines 30-33). -/
def rotZ (θ : ℝ) : M3 := Matrix.of
  ![![Real.cos (θ * Real.pi / 180), -Real.sin (θ * Real.pi / 180), 0],
    ![Real.sin (θ * Real.pi / 180), Real.cos (θ * Real.pi / 180), 0],
    ![0, 0, 1]]

/-- Embedding of `getLocalFrameMatrix(R_ij, t_ij)` (lines 89-101):
`np.block([[R, t], [np.zeros((1,3)), 1]])`. -/
def getLocalFrameMatrix (R_ij : M3) (t_ij : Fin 3 → ℝ) : M4 :=
  Matrix.of fun i j =>
    if hi : (i : ℕ) < 3 then
      if hj : (j : ℕ) < 3 then R_ij ⟨(i : ℕ), hi⟩ ⟨(j : ℕ), hj⟩
      else t_ij ⟨(i : ℕ), hi⟩
    else if (j : ℕ) < 3 then 0 else 1

/-- The matrix `T_new` built inside the `forward_kinematics` loop
(lines 114-116): `np.eye(4)` with `T_new[:3,:3] = R` and
`T_new[:3,3] = [L, 0, 0]` written over it. -/
def fkLocalTransform (R : M3) (L : ℝ) : M4 :=
  Matrix.of fun i j =>
    if hi : (i : ℕ) < 3 then
      if hj : (j : ℕ) < 3 then R ⟨(i : ℕ), hi⟩ ⟨(j : ℕ), hj⟩
      else ![L, 0, 0] ⟨(i : ℕ), hi⟩
    else (1 : M4) i j

/-- The fixed axis list of `forward_kinematics` (line 105). -/
def axesList : List String := ["z", "y", "x", "z"]

/-- The translation block `T[:3, 3]` of a homogeneous matrix. -/
def translationOf (T : M4) : Fin 3 → ℝ := fun i => T i.castSucc 3

/-- The loop of `forward_kinematics` (lines 112-118): iterates over
`enumerate(zip(Phi_list, axes))` carrying the running transform `T` and
returning the list of transforms appended to `T_list`.  `links[i]?` models
the `link_lengths[i]` subscript (an out-of-range index raises). -/
def fkLoop (links : List ℝ) : List (ℝ × String) → ℕ → M4 → Option (List M4)
  | [], _, _ => some []
  | (angle, axis) :: rest, i, T =>
    (RotationMatrix angle axis).bind fun R =>
      links[i]?.bind fun L =>
        let T2 := T * fkLocalTransform R L
        (fkLoop links rest (i + 1) T2).map fun tl => T2 :: tl

/-- The full `T_list` of `forward_kinematics`: initialized to `[np.eye(4)]`
(lines 108-109) and extended once per loop iteration. -/
def fkTList (Phi_list : List ℝ) (L1 L2 L3 L4 : ℝ) : Option (List M4) :=
  (fkLoop [L1, L2, L3, L4] (Phi_list.zip axesList) 0 1).map fun rest => 1 :: rest

/-- Embedding of `forward_kinematics(Phi_list, L1, L2, L3, L4)`
(lines 103-121).  The return line subscripts `T_list[1] .. T_list[4]` and
`T_list[-1][:3, 3]`; each subscript is modelled by a fallible lookup. -/
def forward_kinematics (Phi_list : List ℝ) (L1 L2 L3 L4 : ℝ) :
    Option (M4 × M4 × M4 × M4 × (Fin 3 → ℝ)) :=
  (fkTList Phi_list L1 L2 L3 L4).bind fun T_list =>
    T_list[1]?.bind fun A =>
    T_list[2]?.bind fun B =>
    T_list[3]?.bind fun C =>
    T_list[4]?.bind fun D =>
    T_list.getLast?.bind fun last =>
    some (A, B, C, D, translationOf last)

/-! ## Helper lemmas: branch values of `RotationMatrix` -/

theorem RotationMatrix_x (θ : ℝ) : RotationMatrix θ "x" = some (rotX θ) := rfl

theorem RotationMatrix_y (θ : ℝ) : RotationMatrix θ "y" = some (rotY θ) := rfl

theorem RotationMatrix_z (θ : ℝ) : RotationMatrix θ "z" = some (rotZ θ) := rfl

theorem RotationMatrix_none (θ : ℝ) (ax : String)
    (hx : ¬ ax = "x") (hy : ¬ ax = "y") (hz : ¬ ax = "z") :
    RotationMatrix θ ax = none := by
  simp [RotationMatrix, hx, hy, hz]

/-! ## Helper lemmas: block structure of the homogeneous matrices -/

theorem glfm_rot (R : M3) (t : Fin 3 → ℝ) (i j : Fin 3) :
    getLocalFrameMatrix R t i.castSucc j.castSucc = R i j := by
  simp [getLocalFrameMatrix, Fin.is_lt]

theorem glfm_tr (R : M3) (t : Fin 3 → ℝ) (i : Fin 3) :
    getLocalFrameMatrix R t i.castSucc (Fin.last 3) = t i := by
  simp [getLocalFrameMatrix, Fin.is_lt]

theorem glfm_bot (R : M3) (t : Fin 3 → ℝ) (j : Fin 3) :
    getLocalFrameMatrix R t (Fin.last 3) j.castSucc = 0 := by
  simp [getLocalFrameMatrix, Fin.is_lt]

theorem glfm_corner (R : M3) (t : Fin 3 → ℝ) :
    getLocalFrameMatrix R t (Fin.last 3) (Fin.last 3) = 1 := by
  simp [getLocalFrameMatrix]

theorem fkLocalTransform_eq (R : M3) (L : ℝ) :
    fkLocalTransform R L = getLocalFrameMatrix R ![L, 0, 0] := by
  ext i j
  refine Fin.lastCases ?_ (fun i' => ?_) i <;> refine Fin.lastCases ?_ (fun j' => ?_) j
  · rw [glfm_corner]
    simp [fkLocalTransform, Matrix.one_apply]
  · rw [glfm_bot]
    have hne : (Fin.last 3) ≠ j'.castSucc := by
      intro hcontra
      have := congrArg Fin.val hcontra
      simp at this
      omega
    simp [fkLocalTransform, Matrix.one_apply, hne]
  · rw [glfm_tr]
    simp [fkLocalTransform, Fin.is_lt]
  · rw [glfm_rot]
    simp [fkLocalTransform, Fin.is_lt]

theorem glfm_mul (R₁ R₂ : M3) (t₁ t₂ : Fin 3 → ℝ) :
    getLocalFrameMatrix R₁ t₁ * getLocalFrameMatrix R₂ t₂ =
      getLocalFrameMatrix (R₁ * R₂) (R₁.mulVec t₂ + t₁) := by
  ext i j
  rw [Matrix.mul_apply, Fin.sum_univ_castSucc]
  refine Fin.lastCases ?_ (fun i' => ?_) i <;> refine Fin.lastCases ?_ (fun j' => ?_) j
  · simp [glfm_corner, glfm_bot, glfm_tr]
  · simp [glfm_corner, glfm_bot, glfm_rot]
  · simp [glfm_corner, glfm_tr, glfm_rot, Matrix.mulVec, Matrix.dotProduct,
      Fin.sum_univ_three]
  · simp [glfm_bot, glfm_tr, glfm_rot, Matrix.mul_apply]

theorem translationOf_glfm (R : M3) (t : Fin 3 → ℝ) :
    translationOf (getLocalFrameMatrix R t) = t := by
  funext i
  have h3 : (3 : Fin 4) = Fin.last 3 := rfl
  rw [translationOf, h3, glfm_tr]

/-! ## Helper lemmas: rotation matrices at the concrete angles 0 and 90 -/

theorem rot_arg_90 : (90 : ℝ) * Real.pi / 180 = Real.pi / 2 := by ring

theorem rot_arg_0 : (0 : ℝ) * Real.pi / 180 = 0 := by ring

theorem rotZ_90 : rotZ 90 = Matrix.of ![![0, -1, 0], ![1, 0, 0], ![0, 0, 1]] := by
  rw [rotZ, rot_arg_90]
  simp [Real.cos_pi_div_two, Real.sin_pi_div_two]

theorem rotX_0 : rotX 0 = 1 := by
  rw [rotX, rot_arg_0, Matrix.one_fin_three]
  simp

theorem rotY_0 : rotY 0 = 1 := by
  rw [rotY, rot_arg_0, Matrix.one_fin_three]
  simp

theorem rotZ_0 : rotZ 0 = 1 := by
  rw [rotZ, rot_arg_0, Matrix.one_fin_three]
  simp

/-! ## Helper lemmas: orthonormality and determinant of each branch matrix -/

theorem rotX_orth (θ : ℝ) : rotX θ * (rotX θ).transpose = 1 := by
  have ht : (rotX θ).transpose =
      !![1, 0, 0;
         0, Real.cos (θ * Real.pi / 180), Real.sin (θ * Real.pi / 180);
         0, -Real.sin (θ * Real.pi / 180), Real.cos (θ * Real.pi / 180)] := by
    ext i j
    fin_cases i <;> fin_cases j <;> rfl
  rw [ht, show rotX θ =
      !![1, 0, 0;
         0, Real.cos (θ * Real.pi / 180), -Real.sin (θ * Real.pi / 180);
         0, Real.sin (θ * Real.pi / 180), Real.cos (θ * Real.pi / 180)] from rfl,
    Matrix.mul_fin_three, Matrix.one_fin_three]
  ext i j
  fin_cases i <;> fin_cases j <;> simp [Matrix.vecHead, Matrix.vecTail] <;>
    first
      | linear_combination Real.sin_sq_add_cos_sq (θ * Real.pi / 180)
      | ring

theorem rotY_orth (θ : ℝ) : rotY θ * (rotY θ).transpose = 1 := by
  have ht : (rotY θ).transpose =
      !![Real.cos (θ * Real.pi / 180), 0, -Real.sin (θ * Real.pi / 180);
         0, 1, 0;
         Real.sin (θ * Real.pi / 180), 0, Real.cos (θ * Real.pi / 180)] := by
    ext i j
    fin_cases i <;> fin_cases j <;> rfl
  rw [ht, show rotY θ =
      !![Real.cos (θ * Real.pi / 180), 0, Real.sin (θ * Real.pi / 180);
         0, 1, 0;
         -Real.sin (θ * Real.pi / 180), 0, Real.cos (θ * Real.pi / 180)] from rfl,
    Matrix.mul_fin_three, Matrix.one_fin_three]
  ext i j
  fin_cases i <;> fin_cases j <;> simp [Matrix.vecHead, Matrix.vecTail] <;>
    first
      | linear_combination Real.sin_sq_add_cos_sq (θ * Real.pi / 180)
      | ring

theorem rotZ_orth (θ : ℝ) : rotZ θ * (rotZ θ).transpose = 1 := by
  have ht : (rotZ θ).transpose =
      !![Real.cos (θ * Real.pi / 180), Real.sin (θ * Real.pi / 180), 0;
         -Real.sin (θ * Real.pi / 180), Real.cos (θ * Real.pi / 180), 0;
         0, 0, 1] := by
    ext i j
    fin_cases i <;> fin_cases j <;> rfl
  rw [ht, show rotZ θ =
      !![Real.cos (θ * Real.pi / 180), -Real.sin (θ * Real.pi / 180), 0;
         Real.sin (θ * Real.pi / 180), Real.cos (θ * Real.pi / 180), 0;
         0, 0, 1] from rfl,
    Matrix.mul_fin_three, Matrix.one_fin_three]
  ext i j
  fin_cases i <;> fin_cases j <;> simp [Matrix.vecHead, Matrix.vecTail] <;>
    first
      | linear_combination Real.sin_sq_add_cos_sq (θ * Real.pi / 180)
      | ring

theorem rotX_det (θ : ℝ) : (rotX θ).det = 1 := by
  simp [rotX, Matrix.det_fin_three]
  linear_combination Real.sin_sq_add_cos_sq (θ * Real.pi / 180)

theorem rotY_det (θ : ℝ) : (rotY θ).det = 1 := by
  simp [rotY, Matrix.det_fin_three]
  linear_combination Real.sin_sq_add_cos_sq (θ * Real.pi / 180)

theorem rotZ_det (θ : ℝ) : (rotZ θ).det = 1 := by
  simp [rotZ, Matrix.det_fin_three]
  linear_combination Real.sin_sq_add_cos_sq (θ * Real.pi / 180)

/-! ## Helper lemmas: structure of the solver loop -/

theorem fkLoop_invariant (links : List ℝ) (pairs : List (ℝ × String)) :
    ∀ (n : ℕ) (T : M4) (l : List M4), fkLoop links pairs n T = some l →
      l.length = pairs.length ∧
      ∀ k, k < pairs.length →
        ∃ p R L, pairs[k]? = some p ∧ RotationMatrix p.1 p.2 = some R ∧
          links[n + k]? = some L ∧
          (T :: l).getD (k + 1) 1 = (T :: l).getD k 1 * fkLocalTransform R L := by
  induction pairs with
  | nil =>
    intro n T l h
    simp only [fkLoop, Option.some.injEq] at h
    subst h
    exact ⟨rfl, fun k hk => absurd hk (Nat.not_lt_zero k)⟩
  | cons p rest ih =>
    intro n T l h
    obtain ⟨angle, axis⟩ := p
    simp only [fkLoop, Option.bind_eq_some, Option.map_eq_some'] at h
    obtain ⟨R, hR, L, hL, tl, htl, rfl⟩ := h
    obtain ⟨hlen, hk⟩ := ih (n + 1) (T * fkLocalTransform R L) tl htl
    refine ⟨by simp [hlen], fun k hklt => ?_⟩
    cases k with
    | zero =>
      exact ⟨(angle, axis), R, L, by simp, hR, by simpa using hL, by simp⟩
    | succ k' =>
      obtain ⟨p', R', L', hp', hR', hL', heq⟩ := hk k' (by simpa using hklt)
      refine ⟨p', R', L', by simpa using hp', hR', ?_, ?_⟩
      · rw [show n + (k' + 1) = n + 1 + k' by omega]
        exact hL'
      · simpa using heq

theorem fk_first_pose (Phi_list : List ℝ) (L1 L2 L3 L4 : ℝ)
    (r : M4 × M4 × M4 × M4 × (Fin 3 → ℝ))
    (h : forward_kinematics Phi_list L1 L2 L3 L4 = some r) :
    ∃ a rest, Phi_list = a :: rest ∧ r.1 = 1 * fkLocalTransform (rotZ a) L1 := by
  match Phi_list with
  | [] =>
    exact absurd h (by simp [forward_kinematics, fkTList, fkLoop, axesList])
  | a :: rest =>
    refine ⟨a, rest, rfl, ?_⟩
    have hshape : forward_kinematics (a :: rest) L1 L2 L3 L4 =
        (((fkLoop [L1, L2, L3, L4] (rest.zip ["y", "x", "z"]) 1
            (1 * fkLocalTransform (rotZ a) L1)).map
          fun tl => (1 * fkLocalTransform (rotZ a) L1) :: tl).map
          fun rest' => (1 : M4) :: rest').bind
          (fun T_list =>
            T_list[1]?.bind fun A =>
            T_list[2]?.bind fun B =>
            T_list[3]?.bind fun C =>
            T_list[4]?.bind fun D =>
            T_list.getLast?.bind fun last =>
            some (A, B, C, D, translationOf last)) := rfl
    rw [hshape] at h
    cases hrec : fkLoop [L1, L2, L3, L4] (rest.zip ["y", "x", "z"]) 1
        (1 * fkLocalTransform (rotZ a) L1) with
    | none => rw [hrec] at h; simp at h
    | some tl =>
      rw [hrec] at h
      simp only [Option.map_some', Option.some_bind, Option.bind_eq_some,
        List.getElem?_cons_zero, List.getElem?_cons_succ, Option.some.injEq] at h
      obtain ⟨B, hB, C, hC, D, hD, last, hlast, hr⟩ := h
      rw [← hr]

/-- Evaluation of the solver on the scenario angles `[90, 0, 0, 0]` with unit
link lengths: the end-effector position is `(1, 3, 0)`. -/
theorem fk_ninety :
    (forward_kinematics [90, 0, 0, 0] 1 1 1 1).map (fun r => r.2.2.2.2) =
      some ![(1 : ℝ), 3, 0] := by
  have h4 : forward_kinematics [90, 0, 0, 0] 1 1 1 1 = some
      (1 * fkLocalTransform (rotZ 90) 1,
       1 * fkLocalTransform (rotZ 90) 1 * fkLocalTransform (rotY 0) 1,
       1 * fkLocalTransform (rotZ 90) 1 * fkLocalTransform (rotY 0) 1 *
         fkLocalTransform (rotX 0) 1,
       1 * fkLocalTransform (rotZ 90) 1 * fkLocalTransform (rotY 0) 1 *
         fkLocalTransform (rotX 0) 1 * fkLocalTransform (rotZ 0) 1,
       translationOf (1 * fkLocalTransform (rotZ 90) 1 * fkLocalTransform (rotY 0) 1 *
         fkLocalTransform (rotX 0) 1 * fkLocalTransform (rotZ 0) 1)) := rfl
  rw [h4, Option.map_some']
  congr 1
  rw [rotY_0, rotX_0, rotZ_0, rotZ_90, one_mul, fkLocalTransform_eq, fkLocalTransform_eq,
    glfm_mul, glfm_mul, glfm_mul, translationOf_glfm]
  funext i
  fin_cases i <;>
    norm_num [Matrix.mulVec, Matrix.dotProduct, Fin.sum_univ_three, Matrix.vecHead,
      Matrix.vecTail]

/-! ## Claims -/

/-- C1 (amended): for angles `[90, 0, 0, 0]`, axes `[z, y, x, z]` and link
lengths `[1, 1, 1, 1]`, the end-effector position returned by
`forward_kinematics` is `(1, 3, 0)`: the solver writes each joint's
translation `(L_i, 0, 0)` into the same local matrix as that joint's
rotation, so the first link's offset stays along world x and the 90-degree
rotation about z redirects only the three later links along world y. -/
theorem C1_end_effector_amended :
    (forward_kinematics [90, 0, 0, 0] 1 1 1 1).map (fun r => r.2.2.2.2) =
      some ![(1 : ℝ), 3, 0] :=
  fk_ninety

/-- C1 (counterexample): the claimed end-effector position `(0, 4, 0)` for
angles `[90, 0, 0, 0]` and unit link lengths is not what
`forward_kinematics` returns. -/
theorem C1_end_effector_counterexample :
    (forward_kinematics [90, 0, 0, 0] 1 1 1 1).map (fun r => r.2.2.2.2) ≠
      some ![(0 : ℝ), 4, 0] := by
  rw [fk_ninety]
  intro hcontra
  have h0 := congrFun (Option.some.inj hcontra) 0
  simp at h0

/-- C2 (amended): with fewer angles than the four fixed axes (for example 3
angles), `forward_kinematics` does fail and hands the caller no partial
output — but the failure is an out-of-range `T_list[4]` subscript in the
return statement, raised only after the loop has computed the partial
transforms; there is no dedicated `InvalidChainConfiguration` check, and a
mismatch with more angles than axes does not fail at all (see C9). -/
theorem C2_mismatch_amended (a1 a2 a3 L1 L2 L3 L4 : ℝ) :
    forward_kinematics [a1, a2, a3] L1 L2 L3 L4 = none := rfl

/-- C2 (counterexample): five angles against the four fixed axes is a
length mismatch, yet `forward_kinematics` succeeds instead of failing, so
the claim that a disagreeing configuration always fails fast is false. -/
theorem C2_mismatch_counterexample :
    (forward_kinematics [0, 0, 0, 0, 0] 1 1 1 1).isSome = true := rfl

/-- C3: for every 4-element angle sequence and all link lengths, the solver
builds for each joint the local transform with rotation block
`rotation(angles[i], axes[i])` (axes fixed to `[z, y, x, z]`) and
translation block `(linkLengths[i], 0, 0)`, right-multiplies the running
transform (`T = T * localTransform_i`), and appends each updated `T` to the
pose list, returning the four cumulative poses and the final translation. -/
theorem C3_local_transform_chain (a1 a2 a3 a4 L1 L2 L3 L4 : ℝ) :
    RotationMatrix a1 "z" = some (rotZ a1) ∧
    RotationMatrix a2 "y" = some (rotY a2) ∧
    RotationMatrix a3 "x" = some (rotX a3) ∧
    RotationMatrix a4 "z" = some (rotZ a4) ∧
    fkTList [a1, a2, a3, a4] L1 L2 L3 L4 = some
      [1,
       1 * fkLocalTransform (rotZ a1) L1,
       1 * fkLocalTransform (rotZ a1) L1 * fkLocalTransform (rotY a2) L2,
       1 * fkLocalTransform (rotZ a1) L1 * fkLocalTransform (rotY a2) L2 *
         fkLocalTransform (rotX a3) L3,
       1 * fkLocalTransform (rotZ a1) L1 * fkLocalTransform (rotY a2) L2 *
         fkLocalTransform (rotX a3) L3 * fkLocalTransform (rotZ a4) L4] ∧
    forward_kinematics [a1, a2, a3, a4] L1 L2 L3 L4 = some
      (1 * fkLocalTransform (rotZ a1) L1,
       1 * fkLocalTransform (rotZ a1) L1 * fkLocalTransform (rotY a2) L2,
       1 * fkLocalTransform (rotZ a1) L1 * fkLocalTransform (rotY a2) L2 *
         fkLocalTransform (rotX a3) L3,
       1 * fkLocalTransform (rotZ a1) L1 * fkLocalTransform (rotY a2) L2 *
         fkLocalTransform (rotX a3) L3 * fkLocalTransform (rotZ a4) L4,
       translationOf (1 * fkLocalTransform (rotZ a1) L1 * fkLocalTransform (rotY a2) L2 *
         fkLocalTransform (rotX a3) L3 * fkLocalTransform (rotZ a4) L4)) :=
  ⟨rfl, rfl, rfl, rfl, rfl, rfl⟩

/-- C4: for every input, the pose list `T_list` of the solver starts with
the 4x4 identity (the running transform before any joint is processed), and
each later pose is the previous pose right-multiplied by that joint's local
transform (rotation of `angles[k]` about `axes[k]`, translation
`(linkLengths[k], 0, 0)`). -/
theorem C4_pose_invariant (Phi_list : List ℝ) (L1 L2 L3 L4 : ℝ)
    (T_list : List M4) (h : fkTList Phi_list L1 L2 L3 L4 = some T_list) :
    T_list.getD 0 1 = 1 ∧
    ∀ k, k + 1 < T_list.length →
      ∃ p R L, (Phi_list.zip axesList)[k]? = some p ∧
        RotationMatrix p.1 p.2 = some R ∧ [L1, L2, L3, L4][k]? = some L ∧
        T_list.getD (k + 1) 1 = T_list.getD k 1 * fkLocalTransform R L := by
  simp only [fkTList, Option.map_eq_some'] at h
  obtain ⟨rest, hloop, rfl⟩ := h
  obtain ⟨hlen, hks⟩ :=
    fkLoop_invariant [L1, L2, L3, L4] (Phi_list.zip axesList) 0 1 rest hloop
  refine ⟨rfl, fun k hk => ?_⟩
  have hk' : k < (Phi_list.zip axesList).length := by
    rw [← hlen]
    simpa using hk
  obtain ⟨p, R, L, hp, hR, hL, heq⟩ := hks k hk'
  exact ⟨p, R, L, hp, hR, by simpa using hL, heq⟩

/-- C4 witness: the invariant instantiated at the one-joint input `[0]`
with link lengths `1, 2, 3, 4`. -/
theorem C4_pose_invariant_witness :
    [(1 : M4), 1 * fkLocalTransform (rotZ 0) 1].getD 0 1 = 1 ∧
    ∀ k, k + 1 < [(1 : M4), 1 * fkLocalTransform (rotZ 0) 1].length →
      ∃ p R L, (([(0 : ℝ)]).zip axesList)[k]? = some p ∧
        RotationMatrix p.1 p.2 = some R ∧ [(1 : ℝ), 2, 3, 4][k]? = some L ∧
        [(1 : M4), 1 * fkLocalTransform (rotZ 0) 1].getD (k + 1) 1 =
          [(1 : M4), 1 * fkLocalTransform (rotZ 0) 1].getD k 1 *
            fkLocalTransform R L :=
  C4_pose_invariant [0] 1 2 3 4 [1, 1 * fkLocalTransform (rotZ 0) 1] rfl

/-- C5: for every angle and every axis name in `{x, y, z}`, `RotationMatrix`
assigns `rotation_matrix` before the return (no `UnboundLocalError`), and in
particular the `'x'` result survives the subsequent `if 'y' / elif 'z'`
dispatch untouched even though the `'x'` branch uses `if` rather than
`elif`. -/
theorem C5_axis_dispatch_safe (θ : ℝ) (ax : String)
    (h : ax = "x" ∨ ax = "y" ∨ ax = "z") :
    (RotationMatrix θ ax).isSome = true ∧
    RotationMatrix θ "x" = some (rotX θ) := by
  rcases h with h | h | h <;> subst h <;> exact ⟨rfl, rfl⟩

/-- C5 witness: the dispatch-safety statement at angle `0`, axis `x`. -/
theorem C5_axis_dispatch_safe_witness :
    (RotationMatrix 0 "x").isSome = true ∧
    RotationMatrix 0 "x" = some (rotX 0) :=
  C5_axis_dispatch_safe 0 "x" (Or.inl rfl)

/-- C6: for every angle `θ` in degrees, `RotationMatrix` converts it to
radians (`θ * π / 180`) and returns exactly the matrix
`[[1,0,0],[0,c,-s],[0,s,c]]` for axis `x`, `[[c,0,s],[0,1,0],[-s,0,c]]` for
axis `y`, and `[[c,-s,0],[s,c,0],[0,0,1]]` for axis `z`, where `c` and `s`
are the cosine and sine of the converted angle. -/
theorem C6_rotation_entries (θ : ℝ) :
    RotationMatrix θ "x" = some (Matrix.of
      ![![1, 0, 0],
        ![0, Real.cos (θ * Real.pi / 180), -Real.sin (θ * Real.pi / 180)],
        ![0, Real.sin (θ * Real.pi / 180), Real.cos (θ * Real.pi / 180)]]) ∧
    RotationMatrix θ "y" = some (Matrix.of
      ![![Real.cos (θ * Real.pi / 180), 0, Real.sin (θ * Real.pi / 180)],
        ![0, 1, 0],
        ![-Real.sin (θ * Real.pi / 180), 0, Real.cos (θ * Real.pi / 180)]]) ∧
    RotationMatrix θ "z" = some (Matrix.of
      ![![Real.cos (θ * Real.pi / 180), -Real.sin (θ * Real.pi / 180), 0],
        ![Real.sin (θ * Real.pi / 180), Real.cos (θ * Real.pi / 180), 0],
        ![0, 0, 1]]) :=
  ⟨rfl, rfl, rfl⟩

/-- C7: whenever `RotationMatrix` returns a matrix `R` (any angle, any axis
string), `R` is orthonormal (`R * Rᵗ = 1`) and has determinant `1`; for the
three valid axes this is the returned rotation, for any other string the
function returns nothing and the statement holds vacuously on both sides. -/
theorem C7_rotation_orthonormal (θ : ℝ) (ax : String) :
    ((RotationMatrix θ ax).map fun R => R * R.transpose) =
      ((RotationMatrix θ ax).map fun _ => 1) ∧
    ((RotationMatrix θ ax).map Matrix.det) =
      ((RotationMatrix θ ax).map fun _ => 1) := by
  by_cases hx : ax = "x"
  · subst hx
    rw [RotationMatrix_x]
    exact ⟨by rw [Option.map_some', Option.map_some', rotX_orth],
           by rw [Option.map_some', Option.map_some', rotX_det]⟩
  by_cases hy : ax = "y"
  · subst hy
    rw [RotationMatrix_y]
    exact ⟨by rw [Option.map_some', Option.map_some', rotY_orth],
           by rw [Option.map_some', Option.map_some', rotY_det]⟩
  by_cases hz : ax = "z"
  · subst hz
    rw [RotationMatrix_z]
    exact ⟨by rw [Option.map_some', Option.map_some', rotZ_orth],
           by rw [Option.map_some', Option.map_some', rotZ_det]⟩
  rw [RotationMatrix_none θ ax hx hy hz]
  exact ⟨rfl, rfl⟩

/-- C8: for every 3x3 matrix `R` (orthonormal or not — no validation is
performed) and every translation vector `t`, `getLocalFrameMatrix R t` has
top-left 3x3 block `R`, top-right 3x1 block `t`, and bottom row exactly
`[0, 0, 0, 1]`. -/
theorem C8_frame_blocks (R : M3) (t : Fin 3 → ℝ) :
    (∀ i j : Fin 3, getLocalFrameMatrix R t i.castSucc j.castSucc = R i j) ∧
    (∀ i : Fin 3, getLocalFrameMatrix R t i.castSucc (Fin.last 3) = t i) ∧
    (∀ j : Fin 3, getLocalFrameMatrix R t (Fin.last 3) j.castSucc = 0) ∧
    getLocalFrameMatrix R t (Fin.last 3) (Fin.last 3) = 1 :=
  ⟨glfm_rot R t, glfm_tr R t, glfm_bot R t, glfm_corner R t⟩

/-- C9: an angle sequence with more than four entries raises no error: the
`zip` with the fixed four-element axis list silently drops the extra
angles, so the result equals the solve of the first four angles, and it is
a success. -/
theorem C9_extra_angles_ignored (a1 a2 a3 a4 : ℝ) (rest : List ℝ)
    (L1 L2 L3 L4 : ℝ) :
    forward_kinematics (a1 :: a2 :: a3 :: a4 :: rest) L1 L2 L3 L4 =
      forward_kinematics [a1, a2, a3, a4] L1 L2 L3 L4 ∧
    (forward_kinematics (a1 :: a2 :: a3 :: a4 :: rest) L1 L2 L3 L4).isSome =
      true := by
  have hzip : (a1 :: a2 :: a3 :: a4 :: rest).zip axesList =
      [a1, a2, a3, a4].zip axesList := by
    simp [axesList, List.zip_nil_right]
  have heq : forward_kinematics (a1 :: a2 :: a3 :: a4 :: rest) L1 L2 L3 L4 =
      forward_kinematics [a1, a2, a3, a4] L1 L2 L3 L4 := by
    unfold forward_kinematics fkTList
    rw [hzip]
  exact ⟨heq, by rw [heq]; rfl⟩

/-- C10: for every angle sequence and all link lengths, whenever
`forward_kinematics` returns, the translation block of the first returned
pose is exactly `(L1, 0, 0)` — independent of every joint angle, because
each local transform places the child origin at `(L_i, 0, 0)` in the parent
frame. -/
theorem C10_first_pose_translation (Phi_list : List ℝ) (L1 L2 L3 L4 : ℝ) :
    ((forward_kinematics Phi_list L1 L2 L3 L4).map fun r => translationOf r.1) =
      ((forward_kinematics Phi_list L1 L2 L3 L4).map fun _ => ![L1, 0, 0]) := by
  cases hfk : forward_kinematics Phi_list L1 L2 L3 L4 with
  | none => rfl
  | some r =>
    obtain ⟨a, rest, hPhi, hr1⟩ := fk_first_pose Phi_list L1 L2 L3 L4 r hfk
    simp only [Option.map_some']
    congr 1
    rw [hr1, one_mul, fkLocalTransform_eq, translationOf_glfm]

end Robot3D

end
